import Mathlib

/-!
Verification of the multi-strategy signal-matrix / streak engine of the
abcquant dashboard.

The repository implements the engine twice:
* `src/static/ui.js` — `UI.renderSignalMatrix` / `UI.calculateStreak`
  (rows carry a `price`; series with a non-array `equity_df` are skipped);
* `src/unnamed/part_001` — `loadData` / `renderMatrix` / `calculateStreak`
  (rows carry no price; `calculateStreak` short-circuits on HOLD).

Both are embedded below.  JS objects used as string-keyed maps are modelled
as association lists: a write prepends a binding (for the per-row `signals`
object, whose iteration order is never observed) or updates the unique
entry in place (for the date-keyed `matrixMap`, whose value order is
observed by `Object.values`; JS objects enumerate non-index string keys in
insertion order, so a fresh date appends at the end).  JS numbers are
modelled as `Int` (all claim-relevant inputs are integral), nullable
fields as `Option`, and `Array.prototype.sort` — stable with a consistent
comparator per the ECMAScript spec — as Mathlib's stable `insertionSort`
applied to the comparator's order.
-/

namespace AbcQuant

/-- The ternary signal code after decoding (`"BUY"` / `"SELL"` / `"HOLD"`
strings in the source). -/
inductive Signal where
  | BUY
  | SELL
  | HOLD
deriving DecidableEq

/-- Decoding `item.signal == 1 ? "BUY" : (item.signal == -1 ? "SELL" : "HOLD")`
(src/unnamed/part_001 line 280; same decoding in src/static/ui.js 50-53). -/
def decodeSignal (n : Int) : Signal :=
  if n = 1 then .BUY else if n = -1 then .SELL else .HOLD

/-- One bar of an `equity_df` array: `{date, close, signal}`. -/
structure Bar where
  date : String
  close : Option Int
  signal : Int
deriving DecidableEq

/-- One element of the `signals` payload consumed by
`UI.renderSignalMatrix` (src/static/ui.js).  `strategyKey` models the
source's `strategy_class` field, `annual_return` models
`item.perf?.annual_return` (absent `perf` and absent `annual_return`
collapse to `none`), `equity_df` is `none` when the field is absent or not
an array. -/
structure SignalItem where
  strategyKey : String
  annual_return : Option Int
  equity_df : Option (List Bar)
deriving DecidableEq

/-- The per-strategy wrapper built at src/static/ui.js lines 20-26
(the `name` field is dropped: no claim mentions it). -/
structure StratCol where
  key : String
  annual_return : Option Int
deriving DecidableEq

/-- Wrapper built by `signals.map(item => ({key: item.strategy_class, ..., perf: item.perf}))`
(src/static/ui.js 20-26). -/
def mkStrat (it : SignalItem) : StratCol :=
  ⟨it.strategyKey, it.annual_return⟩

/-- Ranking key `(x.perf?.annual_return || 0)`: a missing or null annual return sorts
as zero (src/static/ui.js 29, src/unnamed/part_001 263). -/
def annKey (a : Option Int) : Int :=
  a.getD 0

/-- Stable sort placing larger keys first: the embedding of
`arr.sort((a, b) => keyOf(b) - keyOf(a))`.  `Array.prototype.sort` is
stable and, with this consistent comparator, produces exactly the stable
descending-by-key order, which is what `insertionSort` with the relation
`keyOf b ≤ keyOf a` computes. -/
def stableSortDescBy {α β : Type} [LinearOrder β] (key : α → β) (l : List α) : List α :=
  l.insertionSort fun a b => key b ≤ key a

/-- A row of the matrix built by `UI.renderSignalMatrix`
(src/static/ui.js 42-48): `{date, price, signals}`. -/
structure MatrixRow where
  date : String
  price : String
  signals : List (String × Signal)
deriving DecidableEq

/-- A row of the matrix built by `loadData` (src/unnamed/part_001 277-279):
`{date, signals}` — no price field. -/
structure Row001 where
  date : String
  signals : List (String × Signal)
deriving DecidableEq

/-- Reading `signalsObj[key]`: first (i.e. most recent) binding wins. -/
def lookupSig : List (String × Signal) → String → Option Signal
  | [], _ => none
  | p :: ps, k => if p.1 = k then some p.2 else lookupSig ps k

/-- The characters before the first `'T'`. -/
def truncDateAux : List Char → List Char
  | [] => []
  | c :: cs => if c = 'T' then [] else c :: truncDateAux cs

/-- Date truncation `typeof d === "string" ? d.split('T')[0] : d` — all modelled dates are
strings, so this is `d.split('T')[0]`, the part of the string before the
first `'T'` (src/unnamed/part_001 276, src/static/ui.js 41). -/
def truncDate (s : String) : String :=
  ⟨truncDateAux s.data⟩

/-- Formatting `Number(x).toFixed(2)` restricted to the integral closes of the model. -/
def toFixed2 (n : Int) : String :=
  toString n ++ ".00"

/-- The body of the `equity_df.forEach(bar => ...)` loop of
`UI.renderSignalMatrix` (src/static/ui.js 40-57) acting on the date-keyed
accumulator: a fresh date appends a row whose `price` is
`Number(bar.close || 0).toFixed(2)`; an existing row keeps its price and
only gains the signal binding. -/
def upsertBarUI (key : String) (bar : Bar) : List MatrixRow → List MatrixRow
  | [] => [⟨truncDate bar.date, toFixed2 (bar.close.getD 0), [(key, decodeSignal bar.signal)]⟩]
  | r :: rs =>
      if r.date = truncDate bar.date then
        ⟨r.date, r.price, (key, decodeSignal bar.signal) :: r.signals⟩ :: rs
      else
        r :: upsertBarUI key bar rs

/-- The whole inner `forEach` over one `equity_df` array. -/
def foldBarsUI (key : String) (bars : List Bar) (m : List MatrixRow) : List MatrixRow :=
  bars.foldl (fun acc b => upsertBarUI key b acc) m

/-- One iteration of `strategies.forEach(({key}, idx) => ...)` at
src/static/ui.js 36-57.  Note the source reads `signals[idx].equity_df`
— the idx-th element of the UNSORTED input — while writing under the
idx-th key of the SORTED strategy list; the pair argument reproduces
that coupling. -/
def processItemUI (m : List MatrixRow) (p : StratCol × SignalItem) : List MatrixRow :=
  match p.2.equity_df with
  | none => m
  | some bars => foldBarsUI p.1.key bars m

/-- The build of `UI.renderSignalMatrix` (src/static/ui.js 13-63) up to its data model:
rank the strategies, merge the bars into the date-keyed map, sort the rows
by date descending.  Returns the ranked strategy columns and the row
store `this.currentDataStore`. -/
def renderSignalMatrix_build (signals : List SignalItem) : List StratCol × List MatrixRow :=
  let strategies := stableSortDescBy (fun s => annKey s.annual_return) (signals.map mkStrat)
  let m := (strategies.zip signals).foldl processItemUI []
  (strategies, stableSortDescBy (fun r => r.date) m)

/-- One element of `result["signal"]` as consumed by `loadData`
(src/unnamed/part_001 253-287).  `equity_df = none` models an absent or
non-array field, on which `strat.equity_df.forEach` throws. -/
structure RawStrategy where
  strategy_name : String
  annual_return : Option Int
  equity_df : Option (List Bar)
deriving DecidableEq

/-- The body of `strat.equity_df.forEach(item => ...)` at
src/unnamed/part_001 274-282 (no price handling). -/
def upsertBar001 (name : String) (bar : Bar) : List Row001 → List Row001
  | [] => [⟨truncDate bar.date, [(name, decodeSignal bar.signal)]⟩]
  | r :: rs =>
      if r.date = truncDate bar.date then
        ⟨r.date, (name, decodeSignal bar.signal) :: r.signals⟩ :: rs
      else
        r :: upsertBar001 name bar rs

/-- The whole inner `forEach` over one strategy's `equity_df`. -/
def foldBars001 (name : String) (bars : List Bar) (m : List Row001) : List Row001 :=
  bars.foldl (fun acc b => upsertBar001 name b acc) m

/-- One iteration of `rawStrategies.forEach(strat => ...)`
(src/unnamed/part_001 272-283): with no `Array.isArray` guard, a missing
`equity_df` throws a TypeError, modelled as `none`. -/
def processStrat001 (m : List Row001) (s : RawStrategy) : Option (List Row001) :=
  match s.equity_df with
  | none => none
  | some bars => some (foldBars001 s.strategy_name bars m)

/-- The matrix-building part of `loadData` (src/unnamed/part_001 263-287):
sort the strategies in place, merge every strategy's bars, sort rows by
date descending.  `none` models the thrown TypeError propagating to
`loadData`'s catch block, which abandons the build (`currentDataStore` is
never assigned). -/
def loadData_build (raw : List RawStrategy) : Option (List Row001) :=
  ((stableSortDescBy (fun s => annKey s.annual_return) raw).foldlM processStrat001 []).map
    (stableSortDescBy fun r => r.date)

/-- The read `currentDataStore[rowIndex].signals[stratName] || "HOLD"` — the signal
read performed by `renderMatrix` before calling `calculateStreak`
(src/unnamed/part_001 303); an out-of-range row or an absent key reads as
HOLD. -/
def sigAt (store : List Row001) (i : Nat) (k : String) : Signal :=
  ((store[i]?).bind fun r => lookupSig r.signals k).getD .HOLD

/-- The scanning loop of `calculateStreak` (src/unnamed/part_001 323-329):
count matching rows until the first mismatch or the end of the store. -/
def scanRun (sig : Signal) (k : String) : List Row001 → Nat
  | [] => 0
  | r :: rs => if lookupSig r.signals k = some sig then scanRun sig k rs + 1 else 0

/-- The `calculateStreak` of src/unnamed/part_001 319-331: return 1 at once
for HOLD, otherwise 1 plus the run scanned from `rowIndex + 1` onward. -/
def calculateStreak (sig : Signal) (rowIndex : Nat) (k : String) (store : List Row001) : Nat :=
  if sig = .HOLD then 1 else 1 + scanRun sig k (store.drop (rowIndex + 1))

/-- The streak of the cell `(rowIndex, k)` exactly as the render loop of
src/unnamed/part_001 computes it: signal read with HOLD default, then
`calculateStreak`. -/
def streakAt (store : List Row001) (i : Nat) (k : String) : Nat :=
  calculateStreak (sigAt store i k) i k store

/-- The read `row.signals[key] || 'HOLD'` of `UI.renderSignalMatrix`
(src/static/ui.js 70). -/
def sigAtUI (store : List MatrixRow) (i : Nat) (k : String) : Signal :=
  ((store[i]?).bind fun r => lookupSig r.signals k).getD .HOLD

/-- The scanning loop of `UI.calculateStreak` (src/static/ui.js 97-100). -/
def scanRunUI (sig : Signal) (k : String) : List MatrixRow → Nat
  | [] => 0
  | r :: rs => if lookupSig r.signals k = some sig then scanRunUI sig k rs + 1 else 0

/-- The `UI.calculateStreak` of src/static/ui.js 95-102: NO short-circuit for
HOLD — it scans like any other signal.  The stray
`static function calculateStreak` appended to src/static/strategypool.js
(lines 68-78) has the same body. -/
def calculateStreakUI (sig : Signal) (rowIndex : Nat) (k : String) (store : List MatrixRow) : Nat :=
  1 + scanRunUI sig k (store.drop (rowIndex + 1))

/-- The streak of cell `(rowIndex, k)` as `UI.renderSignalMatrix` computes
it (src/static/ui.js 70-71). -/
def streakAtUI (store : List MatrixRow) (i : Nat) (k : String) : Nat :=
  calculateStreakUI (sigAtUI store i k) i k store

/-- The threshold `CONFIG.minStreak` (src/unnamed/part_001 38, src/static/ui.js CONFIG). -/
def CONFIG_minStreak : Nat := 3

/-- The threshold `CONFIG.strong_Streak` (src/unnamed/part_001 39, src/static/ui.js CONFIG). -/
def CONFIG_strongStreak : Nat := 5

/-- The alert classification of a cell: `STRONG` is the 🔥 marker,
`NOTABLE` the ✨ marker, `NONE` no decoration. -/
inductive Alert where
  | NONE
  | NOTABLE
  | STRONG
deriving DecidableEq

/-- The alert derivation of the render loops
(src/unnamed/part_001 307-310, src/static/ui.js 75-78):
`if (rowIndex === 0 && sig !== "HOLD" && streak >= CONFIG.minStreak)`
with the strong marker iff `streak >= CONFIG.strong_Streak`. -/
def alertClassification (rowIndex : Nat) (sig : Signal) (streak : Nat) : Alert :=
  if rowIndex = 0 ∧ sig ≠ .HOLD ∧ CONFIG_minStreak ≤ streak then
    if CONFIG_strongStreak ≤ streak then .STRONG else .NOTABLE
  else .NONE

/-- All bars of a `signals` payload in the traversal order of
`UI.renderSignalMatrix`: because the source indexes `signals[idx]`, bars
are visited strategy by strategy in INPUT order (absent/non-array
`equity_df` contributing nothing), regardless of the ranking. -/
def allBars (signals : List SignalItem) : List Bar :=
  signals.flatMap fun it => it.equity_df.getD []

/-- Replace an absent/non-array `equity_df` by an empty array (and keep a
present one unchanged): used to state that a malformed series contributes
nothing to the `UI.renderSignalMatrix` build. -/
def cleanBars (it : SignalItem) : SignalItem :=
  { it with equity_df := some (it.equity_df.getD []) }

/-- The action of one bar on the `(date, price)` part of the accumulator:
a fresh date appends `(date, Number(close || 0).toFixed(2))`, an existing
date is left untouched. -/
def pupsert (b : Bar) : List (String × String) → List (String × String)
  | [] => [(truncDate b.date, toFixed2 (b.close.getD 0))]
  | e :: es => if e.1 = truncDate b.date then e :: es else e :: pupsert b es

/-- First-match lookup in a `(date, price)` association list. -/
def pLookup : List (String × String) → String → Option String
  | [], _ => none
  | e :: es, d => if e.1 = d then some e.2 else pLookup es d

/-- The `(date, price)` projection of the accumulator rows. -/
def priceMap (m : List MatrixRow) : List (String × String) :=
  m.map fun r => (r.date, r.price)

/-- Concrete input for claim C1: strategy `"A"` (annual return 1) emits
BUY on 2024-01-01; strategy `"B"` (annual return 2) emits SELL on the
same date, so ranking reorders the columns to `[B, A]`. -/
def c1input : List SignalItem :=
  [⟨"A", some 1, some [⟨"2024-01-01", none, 1⟩]⟩,
   ⟨"B", some 2, some [⟨"2024-01-01", none, -1⟩]⟩]

/-- Concrete `currentDataStore` for claim C2: three rows, newest first,
all HOLD for strategy `"S"`. -/
def c2storeUI : List MatrixRow :=
  [⟨"2024-01-03", "0.00", [("S", Signal.HOLD)]⟩,
   ⟨"2024-01-02", "0.00", [("S", Signal.HOLD)]⟩,
   ⟨"2024-01-01", "0.00", [("S", Signal.HOLD)]⟩]

/-- The same three-row HOLD store in the shape used by
src/unnamed/part_001. -/
def c2store001 : List Row001 :=
  [⟨"2024-01-03", [("S", Signal.HOLD)]⟩,
   ⟨"2024-01-02", [("S", Signal.HOLD)]⟩,
   ⟨"2024-01-01", [("S", Signal.HOLD)]⟩]

/-- Concrete input for claim C3: two strategies with EQUAL annual returns
(so ranking keeps input order) both report a bar for 2024-01-01, the
first with close 10, the second with close 20. -/
def c3input : List SignalItem :=
  [⟨"A", some 1, some [⟨"2024-01-01", some 10, 0⟩]⟩,
   ⟨"B", some 1, some [⟨"2024-01-01", some 20, 0⟩]⟩]

/-- Concrete store for claim C5: signals `[BUY, BUY, BUY, SELL]` newest
first for strategy `"S"`. -/
def c5store : List Row001 :=
  [⟨"2024-01-04", [("S", Signal.BUY)]⟩,
   ⟨"2024-01-03", [("S", Signal.BUY)]⟩,
   ⟨"2024-01-02", [("S", Signal.BUY)]⟩,
   ⟨"2024-01-01", [("S", Signal.SELL)]⟩]

/-- A well-formed strategy series for claim C9. -/
def c9good : RawStrategy :=
  ⟨"G", some 1, some [⟨"2024-01-01", none, 1⟩]⟩

/-- A malformed strategy series (absent/non-array `equity_df`) for
claim C9. -/
def c9bad : RawStrategy :=
  ⟨"M", some 2, none⟩

/-- A mixed malformed/well-formed payload for the ui.js side of C9. -/
def c9uiInput : List SignalItem :=
  [⟨"M", some 2, none⟩,
   ⟨"G", some 1, some [⟨"2024-01-01", none, 1⟩]⟩]

/-- One-row store for claim C10. -/
def c10store : List Row001 :=
  [⟨"2024-01-01", [("S", Signal.BUY)]⟩]

/-- One-row ui.js-shaped store for claim C10. -/
def c10storeUI : List MatrixRow :=
  [⟨"2024-01-01", "0.00", [("S", Signal.BUY)]⟩]

/-! ### Properties of the stable descending sort -/

theorem stableSortDescBy_perm {α β : Type} [LinearOrder β] (key : α → β) (l : List α) :
    List.Perm (stableSortDescBy key l) l :=
  List.perm_insertionSort _ l

theorem stableSortDescBy_pairwise {α β : Type} [LinearOrder β] (key : α → β) (l : List α) :
    (stableSortDescBy key l).Pairwise fun a b => key b ≤ key a := by
  haveI : IsTotal α fun a b => key b ≤ key a := ⟨fun a b => (le_total (key b) (key a)).imp id id⟩
  haveI : IsTrans α fun a b => key b ≤ key a := ⟨fun _ _ _ h1 h2 => le_trans h2 h1⟩
  exact List.sorted_insertionSort _ l

theorem stableSortDescBy_filter_key {α β : Type} [LinearOrder β] (key : α → β) (l : List α)
    (v : β) :
    (stableSortDescBy key l).filter (fun x => decide (key x = v))
      = l.filter fun x => decide (key x = v) := by
  have hperm : List.Perm ((stableSortDescBy key l).filter fun x => decide (key x = v))
      (l.filter fun x => decide (key x = v)) :=
    (stableSortDescBy_perm key l).filter _
  have hpw : (l.filter fun x => decide (key x = v)).Pairwise fun a b => key b ≤ key a := by
    refine List.pairwise_of_forall_mem_list fun a ha b hb => ?_
    have hav : key a = v := by simpa using (List.mem_filter.mp ha).2
    have hbv : key b = v := by simpa using (List.mem_filter.mp hb).2
    rw [hav, hbv]
  have hsub : List.Sublist (l.filter fun x => decide (key x = v)) (stableSortDescBy key l) :=
    List.sublist_insertionSort hpw (List.filter_sublist l)
  have hsub2 : List.Sublist (l.filter fun x => decide (key x = v))
      ((stableSortDescBy key l).filter fun x => decide (key x = v)) := by
    have h1 := hsub.filter fun x => decide (key x = v)
    simpa [List.filter_filter] using h1
  exact (hsub2.eq_of_length hperm.length_eq.symm).symm

/-- Claim C8: the strategy column list produced by the build is the input
list (as wrapped at ui.js 20-26) stably sorted by `annual_return`
descending with missing/null values as zero: it is a permutation of the
input, ordered by non-increasing key, and for every key value the
elements carrying it keep their input order. -/
theorem c8_ranking_stable (signals : List SignalItem) :
    List.Perm (renderSignalMatrix_build signals).1 (signals.map mkStrat)
    ∧ ((renderSignalMatrix_build signals).1).Pairwise
        (fun a b => annKey b.annual_return ≤ annKey a.annual_return)
    ∧ ∀ v : Int,
        ((renderSignalMatrix_build signals).1).filter
            (fun s => decide (annKey s.annual_return = v))
          = (signals.map mkStrat).filter fun s => decide (annKey s.annual_return = v) := by
  refine ⟨?_, ?_, fun v => ?_⟩
  · exact stableSortDescBy_perm _ _
  · exact stableSortDescBy_pairwise _ _
  · exact stableSortDescBy_filter_key _ _ v

/-- Claim C4: with `minStreak = 3` and `strongStreak = 5`, a HOLD cell is
classified NONE regardless of streak; a non-HOLD newest-row cell is NONE
below streak 3, NOTABLE at streak 3 or 4, STRONG at streak 5 and above;
rows other than the newest are never classified. -/
theorem c4_alert_thresholds (rowIndex streak : Nat) (sig : Signal) :
    (sig = Signal.HOLD → alertClassification rowIndex sig streak = Alert.NONE)
    ∧ (rowIndex ≠ 0 → alertClassification rowIndex sig streak = Alert.NONE)
    ∧ (sig ≠ Signal.HOLD → streak < 3 → alertClassification 0 sig streak = Alert.NONE)
    ∧ (sig ≠ Signal.HOLD → (streak = 3 ∨ streak = 4) →
        alertClassification 0 sig streak = Alert.NOTABLE)
    ∧ (sig ≠ Signal.HOLD → 5 ≤ streak → alertClassification 0 sig streak = Alert.STRONG) := by
  refine ⟨fun h => ?_, fun h => ?_, fun h hs => ?_, fun h hs => ?_, fun h hs => ?_⟩
  · simp [alertClassification, h]
  · simp [alertClassification, h]
  · have hn : ¬(0 = 0 ∧ sig ≠ Signal.HOLD ∧ CONFIG_minStreak ≤ streak) := by
      rintro ⟨-, -, hle⟩
      simp only [CONFIG_minStreak] at hle
      omega
    unfold alertClassification
    rw [if_neg hn]
  · have h1 : CONFIG_minStreak ≤ streak := by
      rcases hs with rfl | rfl <;> simp [CONFIG_minStreak]
    have h2 : ¬CONFIG_strongStreak ≤ streak := by
      rcases hs with rfl | rfl <;> simp [CONFIG_strongStreak]
    simp [alertClassification, h, h1, h2]
  · have h1 : CONFIG_minStreak ≤ streak := le_trans (by decide) hs
    have h2 : CONFIG_strongStreak ≤ streak := hs
    simp [alertClassification, h, h1, h2]

/-- Witness for C4: the classification evaluated across the threshold
bands. -/
theorem c4_alert_thresholds_witness :
    alertClassification 0 Signal.HOLD 9 = Alert.NONE
    ∧ alertClassification 2 Signal.BUY 9 = Alert.NONE
    ∧ alertClassification 0 Signal.BUY 2 = Alert.NONE
    ∧ alertClassification 0 Signal.BUY 3 = Alert.NOTABLE
    ∧ alertClassification 0 Signal.SELL 4 = Alert.NOTABLE
    ∧ alertClassification 0 Signal.BUY 5 = Alert.STRONG :=
  ⟨(c4_alert_thresholds 0 9 Signal.HOLD).1 rfl,
   (c4_alert_thresholds 2 9 Signal.BUY).2.1 (by decide),
   (c4_alert_thresholds 0 2 Signal.BUY).2.2.1 (by decide) (by decide),
   (c4_alert_thresholds 0 3 Signal.BUY).2.2.2.1 (by decide) (Or.inl rfl),
   (c4_alert_thresholds 0 4 Signal.SELL).2.2.2.1 (by decide) (Or.inr rfl),
   (c4_alert_thresholds 0 5 Signal.BUY).2.2.2.2 (by decide) (by decide)⟩

/-! ### Streak computation -/

theorem scanRun_eq_takeWhile (sig : Signal) (k : String) (l : List Row001) :
    scanRun sig k l
      = (l.takeWhile fun r => decide (lookupSig r.signals k = some sig)).length := by
  induction l with
  | nil => rfl
  | cons r rs ih =>
      by_cases h : lookupSig r.signals k = some sig
      · simp [scanRun, List.takeWhile_cons, h, ih]
      · simp [scanRun, List.takeWhile_cons, h]

/-- Claim C5: on a non-HOLD cell, the streak of
src/unnamed/part_001's `calculateStreak` is 1 plus the length of the run
of rows below `rowIndex` whose signal for the key equals the cell's
signal (stopping at the first mismatch or the end), and is always at
least 1. -/
theorem c5_streak_run_length (store : List Row001) (i : Nat) (k : String)
    (h : sigAt store i k ≠ Signal.HOLD) :
    streakAt store i k
        = 1 + ((store.drop (i + 1)).takeWhile fun r =>
            decide (lookupSig r.signals k = some (sigAt store i k))).length
      ∧ 1 ≤ streakAt store i k := by
  constructor
  · simp only [streakAt, calculateStreak, if_neg h, scanRun_eq_takeWhile]
  · simp only [streakAt, calculateStreak]
    split <;> omega

/-- Witness for C5 at the spec's own example, signals
`[BUY, BUY, BUY, SELL]` newest first: streaks 3, 2, 1, 1. -/
theorem c5_streak_run_length_witness :
    sigAt c5store 0 "S" ≠ Signal.HOLD
    ∧ streakAt c5store 0 "S"
        = 1 + ((c5store.drop 1).takeWhile fun r =>
            decide (lookupSig r.signals "S" = some (sigAt c5store 0 "S"))).length
    ∧ streakAt c5store 0 "S" = 3 ∧ streakAt c5store 1 "S" = 2
    ∧ streakAt c5store 2 "S" = 1 ∧ streakAt c5store 3 "S" = 1 :=
  ⟨by decide, (c5_streak_run_length c5store 0 "S" (by decide)).1, by decide, by decide,
   by decide, by decide⟩

/-- Counterexample to claim C2 as stated: `UI.calculateStreak`
(src/static/ui.js 95-102, cited by the claim) has no HOLD short-circuit,
so on the store `[HOLD, HOLD, HOLD]` the streak at the newest row is 3,
not 1. -/
theorem c2_ui_hold_run_counts :
    streakAtUI c2storeUI 0 "S" = 3 ∧ streakAtUI c2storeUI 0 "S" ≠ 1 := by
  decide

/-- Claim C2 as amended: the `calculateStreak` of src/unnamed/part_001
(the variant with the guard) returns exactly 1 on a HOLD cell without
scanning. -/
theorem c2_hold_short_circuit (store : List Row001) (i : Nat) (k : String)
    (h : sigAt store i k = Signal.HOLD) : streakAt store i k = 1 := by
  simp [streakAt, calculateStreak, h]

/-- Witness for the amended C2 on the `[HOLD, HOLD, HOLD]` store. -/
theorem c2_hold_short_circuit_witness :
    sigAt c2store001 0 "S" = Signal.HOLD ∧ streakAt c2store001 0 "S" = 1 :=
  ⟨by decide, c2_hold_short_circuit c2store001 0 "S" (by decide)⟩

/-- Claim C10: an out-of-range row index, or a strategy key absent from
every row, makes the signal read HOLD and both `calculateStreak`
variants return the degenerate value 1; both are total functions on the
store (no exception, no mutation). -/
theorem c10_degenerate_inputs :
    (∀ (store : List Row001) (i : Nat) (k : String),
        store.length ≤ i ∨ (∀ r ∈ store, lookupSig r.signals k = none) →
        sigAt store i k = Signal.HOLD ∧ streakAt store i k = 1)
    ∧ ∀ (store : List MatrixRow) (i : Nat) (k : String),
        store.length ≤ i ∨ (∀ r ∈ store, lookupSig r.signals k = none) →
        streakAtUI store i k = 1 := by
  constructor
  · intro store i k h
    have hs : sigAt store i k = Signal.HOLD := by
      rcases h with h | h
      · simp [sigAt, List.getElem?_eq_none h]
      · unfold sigAt
        cases hg : store[i]? with
        | none => simp
        | some r =>
            have hr : r ∈ store := List.getElem?_mem hg
            simp [h r hr]
    exact ⟨hs, by simp [streakAt, calculateStreak, hs]⟩
  · intro store i k h
    unfold streakAtUI calculateStreakUI
    rcases h with h | h
    · rw [List.drop_eq_nil_of_le (by omega)]
      simp [scanRunUI]
    · have hz : scanRunUI (sigAtUI store i k) k (store.drop (i + 1)) = 0 := by
        cases hd : store.drop (i + 1) with
        | nil => rfl
        | cons r rs =>
            have hr : r ∈ store := List.mem_of_mem_drop (hd ▸ List.mem_cons_self r rs)
            simp [scanRunUI, h r hr]
      omega

/-- Witness for C10: an out-of-range index on the part_001 store and an
unknown key on the ui.js store. -/
theorem c10_degenerate_inputs_witness :
    (sigAt c10store 5 "S" = Signal.HOLD ∧ streakAt c10store 5 "S" = 1)
    ∧ streakAtUI c10storeUI 0 "X" = 1 :=
  ⟨c10_degenerate_inputs.1 c10store 5 "S" (Or.inl (by decide)),
   c10_degenerate_inputs.2 c10storeUI 0 "X" (Or.inr (by decide))⟩

/-- Claim C1, the code evaluated at the failing input: ranking reorders
the input `[A, B]` into columns `[B, A]`, but `UI.renderSignalMatrix`
reads `signals[idx].equity_df` — the idx-th series of the UNSORTED input
— so strategy `B`'s column receives the signal decoded from `A`'s bar
(BUY), although `B`'s own last (only) bar for 2024-01-01 decodes to SELL,
and symmetrically for `A`. -/
theorem c1_ui_signal_key_mismatch :
    ((renderSignalMatrix_build c1input).2.map fun r =>
        (r.date, lookupSig r.signals "B", lookupSig r.signals "A"))
      = [("2024-01-01", some Signal.BUY, some Signal.SELL)]
    ∧ decodeSignal (-1) = Signal.SELL ∧ decodeSignal 1 = Signal.BUY := by
  decide

/-- Counterexample to claim C3 as stated: both strategies of `c3input`
supply a non-null close for 2024-01-01 (10 first, 20 second, equal
ranking keys so traversal keeps input order), yet the built row's price
is `"10.00"` — the FIRST processed close — not the later strategy's
`"20.00"`: src/static/ui.js 42-48 sets `price` only when the row is
created and never overwrites it. -/
theorem c3_price_not_last_write :
    (renderSignalMatrix_build c3input).2.map (fun r => (r.date, r.price))
      = [("2024-01-01", "10.00")]
    ∧ (renderSignalMatrix_build c3input).2.map (fun r => r.price) ≠ ["20.00"] := by
  decide

/-- Counterexample to claim C9 as stated: the well-formed series `c9good`
alone builds a one-row matrix, but prefixing the malformed series
`c9bad` (absent `equity_df`) makes `loadData`'s merge loop throw
(src/unnamed/part_001 274 has no `Array.isArray` guard), the catch block
abandons the build, and no series contributes any row. -/
theorem c9_loadData_aborts :
    loadData_build [c9good] = some [⟨"2024-01-01", [("G", Signal.BUY)]⟩]
    ∧ loadData_build [c9bad, c9good] = none := by
  decide

/-! ### Dates of the ui.js accumulator -/

theorem dates_upsertBarUI (k : String) (b : Bar) (m : List MatrixRow) :
    (upsertBarUI k b m).map MatrixRow.date
      = if truncDate b.date ∈ m.map MatrixRow.date then m.map MatrixRow.date
        else m.map MatrixRow.date ++ [truncDate b.date] := by
  induction m with
  | nil => simp [upsertBarUI]
  | cons r rs ih =>
      by_cases h : r.date = truncDate b.date
      · simp [upsertBarUI, h]
      · have hne : ¬truncDate b.date = r.date := fun e => h e.symm
        by_cases hm : truncDate b.date ∈ rs.map MatrixRow.date
        · simp [upsertBarUI, h, ih, hm, hne]
        · simp [upsertBarUI, h, ih, hm, hne]

theorem mem_dates_upsertBarUI (k : String) (b : Bar) (m : List MatrixRow) (d : String) :
    d ∈ (upsertBarUI k b m).map MatrixRow.date
      ↔ d ∈ m.map MatrixRow.date ∨ truncDate b.date = d := by
  rw [dates_upsertBarUI]
  by_cases hm : truncDate b.date ∈ m.map MatrixRow.date
  · rw [if_pos hm]
    exact ⟨Or.inl, fun h => h.elim id fun e => e ▸ hm⟩
  · rw [if_neg hm]
    simp [List.mem_append, eq_comm]

theorem nodup_dates_upsertBarUI (k : String) (b : Bar) (m : List MatrixRow)
    (h : (m.map MatrixRow.date).Nodup) :
    ((upsertBarUI k b m).map MatrixRow.date).Nodup := by
  rw [dates_upsertBarUI]
  by_cases hm : truncDate b.date ∈ m.map MatrixRow.date
  · rwa [if_pos hm]
  · rw [if_neg hm]
    simp [List.nodup_append, h, hm]

theorem mem_dates_foldBarsUI (k : String) (bars : List Bar) (m : List MatrixRow) (d : String) :
    d ∈ (foldBarsUI k bars m).map MatrixRow.date
      ↔ d ∈ m.map MatrixRow.date ∨ ∃ b ∈ bars, truncDate b.date = d := by
  induction bars generalizing m with
  | nil => simp [foldBarsUI]
  | cons b bs ih =>
      have hstep : foldBarsUI k (b :: bs) m = foldBarsUI k bs (upsertBarUI k b m) := rfl
      rw [hstep, ih, mem_dates_upsertBarUI]
      simp only [List.mem_cons]
      constructor
      · rintro ((hd | he) | ⟨x, hx, hxe⟩)
        · exact Or.inl hd
        · exact Or.inr ⟨b, Or.inl rfl, he⟩
        · exact Or.inr ⟨x, Or.inr hx, hxe⟩
      · rintro (hd | ⟨x, rfl | hx, hxe⟩)
        · exact Or.inl (Or.inl hd)
        · exact Or.inl (Or.inr hxe)
        · exact Or.inr ⟨x, hx, hxe⟩

theorem nodup_dates_foldBarsUI (k : String) (bars : List Bar) (m : List MatrixRow)
    (h : (m.map MatrixRow.date).Nodup) :
    ((foldBarsUI k bars m).map MatrixRow.date).Nodup := by
  induction bars generalizing m with
  | nil => exact h
  | cons b bs ih => exact ih _ (nodup_dates_upsertBarUI k b m h)

theorem mem_dates_foldItems (ps : List (StratCol × SignalItem)) (m : List MatrixRow)
    (d : String) :
    d ∈ (ps.foldl processItemUI m).map MatrixRow.date
      ↔ d ∈ m.map MatrixRow.date
        ∨ ∃ p ∈ ps, ∃ bars, p.2.equity_df = some bars ∧ ∃ b ∈ bars, truncDate b.date = d := by
  induction ps generalizing m with
  | nil => simp
  | cons p ps ih =>
      rw [List.foldl_cons, ih]
      cases hdf : p.2.equity_df with
      | none =>
          have hid : processItemUI m p = m := by simp [processItemUI, hdf]
          rw [hid]
          constructor
          · rintro (hd | ⟨q, hq, hΦ⟩)
            · exact Or.inl hd
            · exact Or.inr ⟨q, List.mem_cons_of_mem _ hq, hΦ⟩
          · rintro (hd | ⟨q, hq, hΦ⟩)
            · exact Or.inl hd
            · rcases List.mem_cons.mp hq with rfl | hq'
              · obtain ⟨bars, hbars, -⟩ := hΦ
                rw [hdf] at hbars
                cases hbars
              · exact Or.inr ⟨q, hq', hΦ⟩
      | some bars =>
          have hid : processItemUI m p = foldBarsUI p.1.key bars m := by
            simp [processItemUI, hdf]
          rw [hid, mem_dates_foldBarsUI]
          constructor
          · rintro ((hd | hb) | ⟨q, hq, hΦ⟩)
            · exact Or.inl hd
            · exact Or.inr ⟨p, List.mem_cons_self _ _, bars, hdf, hb⟩
            · exact Or.inr ⟨q, List.mem_cons_of_mem _ hq, hΦ⟩
          · rintro (hd | ⟨q, hq, hΦ⟩)
            · exact Or.inl (Or.inl hd)
            · rcases List.mem_cons.mp hq with rfl | hq'
              · obtain ⟨bars2, hbars2, hb⟩ := hΦ
                rw [hdf] at hbars2
                cases hbars2
                exact Or.inl (Or.inr hb)
              · exact Or.inr ⟨q, hq', hΦ⟩

theorem nodup_dates_foldItems (ps : List (StratCol × SignalItem)) (m : List MatrixRow)
    (h : (m.map MatrixRow.date).Nodup) :
    ((ps.foldl processItemUI m).map MatrixRow.date).Nodup := by
  induction ps generalizing m with
  | nil => exact h
  | cons p ps ih =>
      rw [List.foldl_cons]
      refine ih _ ?_
      cases hdf : p.2.equity_df with
      | none => simpa [processItemUI, hdf] using h
      | some bars =>
          have hid : processItemUI m p = foldBarsUI p.1.key bars m := by
            simp [processItemUI, hdf]
          rw [hid]
          exact nodup_dates_foldBarsUI _ _ _ h

theorem exists_mem_zip_snd {γ δ : Type} (as : List γ) (bs : List δ)
    (h : as.length = bs.length) (Φ : δ → Prop) :
    (∃ p ∈ as.zip bs, Φ p.2) ↔ ∃ b ∈ bs, Φ b := by
  induction as generalizing bs with
  | nil =>
      cases bs with
      | nil => simp
      | cons b bs => simp at h
  | cons a as ih =>
      cases bs with
      | nil => simp at h
      | cons b bs =>
          have hlen : as.length = bs.length := by simpa using h
          simp only [List.zip_cons_cons, List.mem_cons]
          constructor
          · rintro ⟨p, hp | hp, hΦ⟩
            · exact ⟨b, Or.inl rfl, by rw [hp] at hΦ; exact hΦ⟩
            · obtain ⟨x, hx, hxΦ⟩ := (ih bs hlen).mp ⟨p, hp, hΦ⟩
              exact ⟨x, Or.inr hx, hxΦ⟩
          · rintro ⟨x, hx, hΦ⟩
            rcases hx with rfl | hx
            · exact ⟨(a, x), Or.inl rfl, hΦ⟩
            · obtain ⟨p, hp, hpΦ⟩ := (ih bs hlen).mpr ⟨x, hx, hΦ⟩
              exact ⟨p, Or.inr hp, hpΦ⟩

theorem build_strategies_length (signals : List SignalItem) :
    (stableSortDescBy (fun s => annKey s.annual_return) (signals.map mkStrat)).length
      = signals.length := by
  rw [(stableSortDescBy_perm _ _).length_eq, List.length_map]

theorem build_dates_nodup (signals : List SignalItem) :
    ((renderSignalMatrix_build signals).2.map MatrixRow.date).Nodup := by
  have hperm : List.Perm (renderSignalMatrix_build signals).2
      (((stableSortDescBy (fun s => annKey s.annual_return) (signals.map mkStrat)).zip
          signals).foldl processItemUI []) := stableSortDescBy_perm _ _
  exact ((hperm.map MatrixRow.date).nodup_iff).mpr (nodup_dates_foldItems _ _ (by simp))

theorem build_mem_dates (signals : List SignalItem) (d : String) :
    d ∈ (renderSignalMatrix_build signals).2.map MatrixRow.date
      ↔ ∃ it ∈ signals, ∃ bars, it.equity_df = some bars ∧ ∃ b ∈ bars,
          truncDate b.date = d := by
  have hperm : List.Perm (renderSignalMatrix_build signals).2
      (((stableSortDescBy (fun s => annKey s.annual_return) (signals.map mkStrat)).zip
          signals).foldl processItemUI []) := stableSortDescBy_perm _ _
  rw [(hperm.map MatrixRow.date).mem_iff, mem_dates_foldItems]
  simp only [List.map_nil, List.not_mem_nil, false_or]
  exact exists_mem_zip_snd _ _ (build_strategies_length signals)
    fun it => ∃ bars, it.equity_df = some bars ∧ ∃ b ∈ bars, truncDate b.date = d

/-- Claim C6: the dates of the built matrix are exactly the (truncated)
dates occurring in the bars of the series whose `equity_df` is an array
(skipped series contribute nothing), and no date is duplicated. -/
theorem c6_row_completeness (signals : List SignalItem) (d : String) :
    (d ∈ (renderSignalMatrix_build signals).2.map MatrixRow.date
      ↔ ∃ it ∈ signals, ∃ bars, it.equity_df = some bars ∧ ∃ b ∈ bars,
          truncDate b.date = d)
    ∧ ((renderSignalMatrix_build signals).2.map MatrixRow.date).Nodup :=
  ⟨build_mem_dates signals d, build_dates_nodup signals⟩

/-- Claim C7: the rows of the built matrix are in strictly descending
date order under string comparison — newest first. -/
theorem c7_rows_strict_desc (signals : List SignalItem) :
    ((renderSignalMatrix_build signals).2).Pairwise fun a b => b.date < a.date := by
  have hs : ((renderSignalMatrix_build signals).2).Pairwise fun a b => b.date ≤ a.date := by
    show (stableSortDescBy (fun r : MatrixRow => r.date)
        (((stableSortDescBy (fun s : StratCol => annKey s.annual_return)
            (signals.map mkStrat)).zip signals).foldl processItemUI [])).Pairwise
        fun a b => b.date ≤ a.date
    exact stableSortDescBy_pairwise _ _
  have hne : ((renderSignalMatrix_build signals).2).Pairwise fun a b => a.date ≠ b.date :=
    List.pairwise_map.mp (build_dates_nodup signals)
  exact (hs.and hne).imp fun h => lt_of_le_of_ne h.1 fun e => h.2 e.symm

/-! ### The `(date, price)` component of a row -/

theorem priceMap_nil : priceMap [] = [] := rfl

theorem priceMap_cons (r : MatrixRow) (rs : List MatrixRow) :
    priceMap (r :: rs) = (r.date, r.price) :: priceMap rs := rfl

theorem priceMap_upsertBarUI (k : String) (b : Bar) (m : List MatrixRow) :
    priceMap (upsertBarUI k b m) = pupsert b (priceMap m) := by
  induction m with
  | nil => rfl
  | cons r rs ih =>
      have ih' : List.map (fun r => (r.date, r.price)) (upsertBarUI k b rs)
          = pupsert b (List.map (fun r => (r.date, r.price)) rs) := ih
      by_cases h : r.date = truncDate b.date
      · simp [upsertBarUI, pupsert, priceMap, h]
      · simp [upsertBarUI, pupsert, priceMap, h, ih']

theorem priceMap_foldBarsUI (k : String) (bars : List Bar) (m : List MatrixRow) :
    priceMap (foldBarsUI k bars m)
      = bars.foldl (fun acc b => pupsert b acc) (priceMap m) := by
  induction bars generalizing m with
  | nil => rfl
  | cons b bs ih =>
      show priceMap (foldBarsUI k bs (upsertBarUI k b m)) = _
      rw [ih, priceMap_upsertBarUI, List.foldl_cons]

theorem priceMap_foldItems (ps : List (StratCol × SignalItem)) (m : List MatrixRow) :
    priceMap (ps.foldl processItemUI m)
      = (ps.flatMap fun p => p.2.equity_df.getD []).foldl
          (fun acc b => pupsert b acc) (priceMap m) := by
  induction ps generalizing m with
  | nil => rfl
  | cons p ps ih =>
      rw [List.foldl_cons, ih]
      cases hdf : p.2.equity_df with
      | none => simp [processItemUI, hdf]
      | some bars =>
          have hid : processItemUI m p = foldBarsUI p.1.key bars m := by
            simp [processItemUI, hdf]
          rw [hid, priceMap_foldBarsUI]
          simp [hdf, List.foldl_append]

theorem zip_flatMap_snd {γ δ ε : Type} (as : List γ) (bs : List δ) (F : δ → List ε)
    (h : as.length = bs.length) :
    ((as.zip bs).flatMap fun p => F p.2) = bs.flatMap F := by
  induction as generalizing bs with
  | nil =>
      cases bs with
      | nil => rfl
      | cons b bs => simp at h
  | cons a as ih =>
      cases bs with
      | nil => simp at h
      | cons b bs =>
          simp only [List.zip_cons_cons, List.flatMap_cons]
          rw [ih bs (by simpa using h)]

theorem pLookup_pupsert_of_ne (b : Bar) (dp : List (String × String)) (d : String)
    (h : truncDate b.date ≠ d) :
    pLookup (pupsert b dp) d = pLookup dp d := by
  induction dp with
  | nil => simp [pupsert, pLookup, h]
  | cons e es ih =>
      by_cases he : e.1 = truncDate b.date
      · simp [pupsert, he, pLookup]
      · simp [pupsert, he, pLookup, ih]

theorem pLookup_pupsert_self (b : Bar) (dp : List (String × String))
    (h : pLookup dp (truncDate b.date) = none) :
    pLookup (pupsert b dp) (truncDate b.date) = some (toFixed2 (b.close.getD 0)) := by
  induction dp with
  | nil => simp [pupsert, pLookup]
  | cons e es ih =>
      by_cases he : e.1 = truncDate b.date
      · simp [pLookup, he] at h
      · simp only [pLookup, if_neg he] at h
        simp only [pupsert, if_neg he, pLookup, if_neg he]
        exact ih h

theorem pLookup_pupsert_of_some (b : Bar) (dp : List (String × String)) (d p : String)
    (h : pLookup dp d = some p) :
    pLookup (pupsert b dp) d = some p := by
  induction dp with
  | nil => simp [pLookup] at h
  | cons e es ih =>
      by_cases he : e.1 = truncDate b.date
      · simpa [pupsert, he] using h
      · by_cases hd : e.1 = d
        · have hp2 : e.2 = p := by simpa [pLookup, hd] using h
          simp only [pupsert, if_neg he]
          simp [pLookup, hd, hp2]
        · simp only [pLookup, if_neg hd] at h
          simp only [pupsert, if_neg he, pLookup, if_neg hd]
          exact ih h

theorem pLookup_pfold (bars : List Bar) (dp : List (String × String)) (d : String) :
    pLookup (bars.foldl (fun acc b => pupsert b acc) dp) d
      = (pLookup dp d).or
          ((bars.find? fun x => decide (truncDate x.date = d)).map fun b =>
            toFixed2 (b.close.getD 0)) := by
  induction bars generalizing dp with
  | nil => cases h : pLookup dp d <;> simp [h]
  | cons b bs ih =>
      rw [List.foldl_cons, ih]
      cases hp : pLookup dp d with
      | some p =>
          rw [pLookup_pupsert_of_some b dp d p hp]
          rfl
      | none =>
          by_cases hb : truncDate b.date = d
          · rw [← hb] at hp ⊢
            rw [pLookup_pupsert_self b dp hp]
            have hfind : (List.find? (fun x => decide (truncDate x.date = truncDate b.date))
                (b :: bs)) = some b := by
              simp [List.find?_cons]
            rw [hfind]
            simp [Option.or]
          · rw [pLookup_pupsert_of_ne b dp d hb, hp]
            have hfind : (List.find? (fun x => decide (truncDate x.date = d)) (b :: bs))
                = List.find? (fun x => decide (truncDate x.date = d)) bs := by
              simp [List.find?_cons, hb]
            rw [hfind]

theorem pLookup_of_mem (dp : List (String × String)) (d p : String)
    (hmem : (d, p) ∈ dp) (hnd : (dp.map Prod.fst).Nodup) : pLookup dp d = some p := by
  induction dp with
  | nil => simp at hmem
  | cons e es ih =>
      rcases List.mem_cons.mp hmem with rfl | hmem'
      · simp [pLookup]
      · have hnd' := List.nodup_cons.mp hnd
        have hne : e.1 ≠ d := by
          intro he
          exact hnd'.1 (he ▸ List.mem_map_of_mem Prod.fst hmem')
        simp only [pLookup, if_neg hne]
        exact ih hmem' hnd'.2

theorem priceMap_fst (m : List MatrixRow) :
    (priceMap m).map Prod.fst = m.map MatrixRow.date := by
  simp [priceMap, List.map_map]

/-- Claim C3 as amended: for every row of the built matrix, the stored
price is `Number(close || 0).toFixed(2)` of the FIRST bar in traversal
order (bar sources visited in input order, bars in array order) whose
truncated date matches the row — later bars for the same date never
overwrite it. -/
theorem c3_price_first_bar (signals : List SignalItem) (row : MatrixRow)
    (hrow : row ∈ (renderSignalMatrix_build signals).2) :
    ∃ b, (allBars signals).find? (fun x => decide (truncDate x.date = row.date)) = some b
      ∧ row.price = toFixed2 (b.close.getD 0) := by
  have hmem0 : row ∈ ((stableSortDescBy (fun s : StratCol => annKey s.annual_return)
      (signals.map mkStrat)).zip signals).foldl processItemUI [] :=
    (stableSortDescBy_perm (fun r : MatrixRow => r.date) _).mem_iff.mp hrow
  have hpm : (row.date, row.price)
      ∈ priceMap (((stableSortDescBy (fun s : StratCol => annKey s.annual_return)
          (signals.map mkStrat)).zip signals).foldl processItemUI []) :=
    List.mem_map_of_mem _ hmem0
  have hnd : ((priceMap (((stableSortDescBy (fun s : StratCol => annKey s.annual_return)
      (signals.map mkStrat)).zip signals).foldl processItemUI [])).map Prod.fst).Nodup := by
    rw [priceMap_fst]
    exact nodup_dates_foldItems _ _ (by simp)
  have hlk := pLookup_of_mem _ _ _ hpm hnd
  rw [priceMap_foldItems,
    zip_flatMap_snd _ signals (fun it => it.equity_df.getD [])
      (build_strategies_length signals)] at hlk
  have hall : signals.flatMap (fun it => it.equity_df.getD []) = allBars signals := rfl
  rw [hall] at hlk
  have hnil : priceMap ([] : List MatrixRow) = [] := rfl
  rw [hnil, pLookup_pfold] at hlk
  have hnone : pLookup [] row.date = none := rfl
  rw [hnone, Option.none_or] at hlk
  obtain ⟨b, hb, hbp⟩ := Option.map_eq_some'.mp hlk
  exact ⟨b, hb, hbp.symm⟩

/-- Witness for the amended C3: in `c3input` the row for 2024-01-01 is in
the built matrix and its price is the formatted close of the first
matching bar. -/
theorem c3_price_first_bar_witness :
    (⟨"2024-01-01", "10.00", [("B", Signal.HOLD), ("A", Signal.HOLD)]⟩ : MatrixRow)
        ∈ (renderSignalMatrix_build c3input).2
    ∧ ∃ b, (allBars c3input).find?
          (fun x => decide (truncDate x.date
            = (⟨"2024-01-01", "10.00", [("B", Signal.HOLD), ("A", Signal.HOLD)]⟩ :
                MatrixRow).date))
        = some b
      ∧ (⟨"2024-01-01", "10.00", [("B", Signal.HOLD), ("A", Signal.HOLD)]⟩ :
          MatrixRow).price = toFixed2 (b.close.getD 0) :=
  ⟨by decide, c3_price_first_bar c3input _ (by decide)⟩

/-- Claim C9 as amended: in `UI.renderSignalMatrix` a series whose `bars`
field is absent or not an array behaves exactly like one with an empty
bar array — it contributes no rows and no signals and the other series
are processed normally (the build is a total function) — while in
src/unnamed/part_001's `loadData` any such series makes the whole build
abort with no matrix produced at all. -/
theorem c9_skip_or_abort :
    (∀ signals : List SignalItem,
        renderSignalMatrix_build signals = renderSignalMatrix_build (signals.map cleanBars))
    ∧ ∀ raw : List RawStrategy, (∃ s ∈ raw, s.equity_df = none) →
        loadData_build raw = none := by
  constructor
  · intro signals
    have hmap : (signals.map cleanBars).map mkStrat = signals.map mkStrat := by
      rw [List.map_map]
      exact List.map_congr_left fun it _ => rfl
    have hstep : (fun (acc : List MatrixRow) (p : StratCol × SignalItem) =>
          processItemUI acc (Prod.map id cleanBars p)) = processItemUI := by
      funext acc p
      cases hdf : p.2.equity_df <;>
        simp [processItemUI, cleanBars, hdf, foldBarsUI, Prod.map]
    simp only [renderSignalMatrix_build, hmap]
    rw [List.zip_map_right, List.foldl_map, hstep]
  · rintro raw ⟨s, hs, hdf⟩
    have hmem : s ∈ stableSortDescBy (fun s : RawStrategy => annKey s.annual_return) raw :=
      (stableSortDescBy_perm _ raw).mem_iff.mpr hs
    have habort : ∀ (l : List RawStrategy) (init : List Row001), s ∈ l →
        l.foldlM processStrat001 init = none := by
      intro l
      induction l with
      | nil => intro init h; simp at h
      | cons x xs ih =>
          intro init hmem'
          rcases List.mem_cons.mp hmem' with rfl | hx
          · simp [List.foldlM_cons, processStrat001, hdf]
          · cases hx2 : x.equity_df with
            | none => simp [List.foldlM_cons, processStrat001, hx2]
            | some bars =>
                simp only [List.foldlM_cons, processStrat001, hx2, Option.bind_some,
                  Option.some_bind]
                exact ih _ hx
    unfold loadData_build
    rw [habort _ _ hmem]
    rfl

/-- Witness for the amended C9 at the concrete mixed payloads. -/
theorem c9_skip_or_abort_witness :
    renderSignalMatrix_build c9uiInput = renderSignalMatrix_build (c9uiInput.map cleanBars)
    ∧ loadData_build [c9bad, c9good] = none :=
  ⟨c9_skip_or_abort.1 c9uiInput,
   c9_skip_or_abort.2 [c9bad, c9good] ⟨c9bad, List.mem_cons_self _ _, rfl⟩⟩

end AbcQuant
